import Mathlib

/-
  Verification development for the type checker / type inference core
  (TypeInference, typeChecker.cpp) of the P4 compiler front-end.

  The development shallowly embeds the part of the data model and of the
  algorithms that the verified properties are about:

  * the structural fragment of the IR type language (bit types, base
    singleton types, enums, sets, header stacks, tuples, struct-like
    types) as the inductive family PType / PTypeList / FieldList;
  * TypeInference.canonicalize restricted to that fragment, as a pure
    structural function (canonical-type interning through
    TypeMap.getCanonical deduplicates structurally equal types, so on
    structures it is the identity and is dropped from the embedding;
    likewise the memoization lookup at the top of canonicalize caches
    prior results and does not change the computed structure);
  * TypeInference.canCastBetween, the cast, slice, relation, key-element
    and header-stack postorder visitors, the action-call checking loop
    (TypeInference.actionCall) and TypeInference.checkAbstractMethods,
    each as a pure function of the data its C++ original inspects;
  * TypeInference.end_apply as a function that either aborts (the BUG
    macro) or returns the final root.

  The stateful parts that the properties do not depend on (TypeMap
  bookkeeping, reference-map lookups, error-message formatting) are not
  modelled; a visitor that records a type and flags is embedded as a
  function returning those values, and a visitor that only reports
  errors is embedded as a function returning which errors it reports.
-/

namespace P4TypeChecker

/-- Parameter directions of the IR (None, In, Out, InOut). -/
inductive Direction where
  | dirNone
  | dirIn
  | dirOut
  | dirInOut
deriving DecidableEq, Repr

mutual
/-- The structural fragment of the IR type language visited by
TypeInference.canonicalize: Type_Bits, the base singletons, nominal
enum-like types, Type_Set, Type_Stack (whose size is an expression and
is modelled by the constant it evaluates to, if any), Type_Tuple and the
struct-like types.  Nominal types carry their name; structural equality
on this family is the equivalence used by the registry. -/
inductive PType where
  | bits (size : Int) (isSigned : Bool)
  | boolean
  | stringT
  | infInt
  | errorT
  | matchKind
  | stateT
  | voidT
  | dontcare
  | varbits (size : Int)
  | enumT (name : String)
  | actionEnum (name : String)
  | setT (elementType : PType)
  | stackT (elementType : PType) (size : Option Int)
  | tupleT (components : PTypeList)
  | headerT (name : String) (fields : FieldList)
  | structT (name : String) (fields : FieldList)
  | unionT (name : String) (fields : FieldList)
deriving DecidableEq, Repr

/-- Component lists of tuple types. -/
inductive PTypeList where
  | nil
  | cons (head : PType) (tail : PTypeList)
deriving DecidableEq, Repr

/-- Field lists of struct-like types (StructField carries a name and a
type). -/
inductive FieldList where
  | fnil
  | fcons (name : String) (ftype : PType) (tail : FieldList)
deriving DecidableEq, Repr
end

/-- Whether a type is a Type_Set. -/
def isSet : PType → Bool
  | .setT _ => true
  | _ => false

/-- The element type of a Type_Set, identity on every other type
(the per-component rewrite done by the Type_Tuple case of
canonicalize). -/
def stripSet : PType → PType
  | .setT u => u
  | t => t

/-- The anySet flag computed by the Type_Tuple case of canonicalize:
some component is a Type_Set. -/
def anySet : PTypeList → Bool
  | .nil => false
  | .cons t ts => isSet t || anySet ts

mutual
/-- The canonicalize routine (TypeInference.canonicalize) on the
structural fragment.  Case for case with the C++ original:
* Type_SpecializedCanonical / Type_InfInt / Type_Action / Type_Error
  are returned unchanged (here: infInt, errorT);
* Type_Base types: Type_Bits is interned by (size, isSigned) (the
  interned node is structurally the same bits type); all other base
  types are singletons and are returned unchanged;
* Type_Enum / Type_ActionEnum / Type_MatchKind returned unchanged;
* Type_Set: canonicalize the element type, re-wrap;
* Type_Stack: canonicalize the element type, keep the size, intern;
* Type_Tuple: for each component, a Type_Set component is replaced by
  its element type (setting anySet) and then canonicalized; the result
  is interned and, if anySet, wrapped in a Type_Set
  (tuple of sets is lifted to set of tuple);
* struct-like types: canonicalize every field type
  (TypeInference.canonicalizeFields). -/
def canonicalize : PType → PType
  | .setT u => .setT (canonicalize u)
  | .stackT e sz => .stackT (canonicalize e) sz
  | .tupleT comps =>
      if anySet comps then .setT (.tupleT (canonComponents comps))
      else .tupleT (canonComponents comps)
  | .headerT n fs => .headerT n (canonFields fs)
  | .structT n fs => .structT n (canonFields fs)
  | .unionT n fs => .unionT n (canonFields fs)
  | t => t

/-- The component loop of the Type_Tuple case of canonicalize: strip a
Type_Set wrapper, then canonicalize. -/
def canonComponents : PTypeList → PTypeList
  | .nil => .nil
  | .cons (.setT u) ts => .cons (canonicalize u) (canonComponents ts)
  | .cons t ts => .cons (canonicalize t) (canonComponents ts)

/-- The field loop (TypeInference.canonicalizeFields): canonicalize
every field type, keeping names. -/
def canonFields : FieldList → FieldList
  | .fnil => .fnil
  | .fcons n t ts => .fcons n (canonicalize t) (canonFields ts)
end

theorem canonComponents_cons (t : PType) (ts : PTypeList) :
    canonComponents (.cons t ts) =
      .cons (canonicalize (stripSet t)) (canonComponents ts) := by
  cases t <;> rfl

theorem canonicalize_bits (n : Int) (s : Bool) :
    canonicalize (.bits n s) = .bits n s := rfl

theorem stripSet_of_not_isSet {t : PType} (h : isSet t = false) :
    stripSet t = t := by
  cases t <;> simp_all [isSet, stripSet]

theorem isSet_canonicalize_of_not_isSet {t : PType} (hns : isSet t = false)
    (hnt : ∀ comps, t = .tupleT comps → anySet comps = false) :
    isSet (canonicalize t) = false := by
  cases t with
  | tupleT comps =>
      have h := hnt comps rfl
      simp [canonicalize, h, isSet]
  | _ => simp_all [canonicalize, isSet]

mutual
/-- No Type_Set occurs as a direct component of any Type_Tuple inside
the type.  On such types the set-lifting rewrite of the Type_Tuple case
of canonicalize never fires a second time. -/
def setFreeTuples : PType → Bool
  | .setT u => setFreeTuples u
  | .stackT e _ => setFreeTuples e
  | .tupleT comps => !anySet comps && setFreeTuplesList comps
  | .headerT _ fs => setFreeTuplesFields fs
  | .structT _ fs => setFreeTuplesFields fs
  | .unionT _ fs => setFreeTuplesFields fs
  | _ => true

/-- setFreeTuples on each member of a component list. -/
def setFreeTuplesList : PTypeList → Bool
  | .nil => true
  | .cons t ts => setFreeTuples t && setFreeTuplesList ts

/-- setFreeTuples on each field type of a field list. -/
def setFreeTuplesFields : FieldList → Bool
  | .fnil => true
  | .fcons _ t ts => setFreeTuples t && setFreeTuplesFields ts
end

mutual
theorem canon_stable (t : PType)
    (h : setFreeTuples (canonicalize t) = true) :
    canonicalize (canonicalize t) = canonicalize t := by
  cases t with
  | setT u =>
      exact congrArg PType.setT (canon_stable u h)
  | stackT e sz =>
      exact congrArg (fun x => PType.stackT x sz) (canon_stable e h)
  | tupleT comps =>
      by_cases ha : anySet comps = true
      · have hcan : canonicalize (.tupleT comps)
            = .setT (.tupleT (canonComponents comps)) := by
          simp [canonicalize, ha]
        rw [hcan] at h ⊢
        have h2 : setFreeTuples (PType.tupleT (canonComponents comps)) = true := h
        simp only [setFreeTuples, Bool.and_eq_true, Bool.not_eq_true',
          Bool.not_eq_eq_eq_not] at h2
        have hns : anySet (canonComponents comps) = false := h2.1
        have hfree : setFreeTuplesList (canonComponents comps) = true := h2.2
        have : canonicalize (PType.tupleT (canonComponents comps))
            = .tupleT (canonComponents (canonComponents comps)) := by
          simp [canonicalize, hns]
        rw [show canonicalize (PType.setT (PType.tupleT (canonComponents comps)))
              = PType.setT (canonicalize (PType.tupleT (canonComponents comps))) from rfl,
            this, comps_stable comps hns hfree]
      · have ha2 : anySet comps = false := by simpa using ha
        have hcan : canonicalize (.tupleT comps)
            = .tupleT (canonComponents comps) := by
          simp [canonicalize, ha2]
        rw [hcan] at h ⊢
        simp only [setFreeTuples, Bool.and_eq_true, Bool.not_eq_true',
          Bool.not_eq_eq_eq_not] at h
        have hns : anySet (canonComponents comps) = false := h.1
        have hfree : setFreeTuplesList (canonComponents comps) = true := h.2
        have : canonicalize (PType.tupleT (canonComponents comps))
            = .tupleT (canonComponents (canonComponents comps)) := by
          simp [canonicalize, hns]
        rw [this, comps_stable comps hns hfree]
  | headerT n fs =>
      exact congrArg (PType.headerT n) (fields_stable fs h)
  | structT n fs =>
      exact congrArg (PType.structT n) (fields_stable fs h)
  | unionT n fs =>
      exact congrArg (PType.unionT n) (fields_stable fs h)
  | bits n s => rfl
  | boolean => rfl
  | stringT => rfl
  | infInt => rfl
  | errorT => rfl
  | matchKind => rfl
  | stateT => rfl
  | voidT => rfl
  | dontcare => rfl
  | varbits n => rfl
  | enumT n => rfl
  | actionEnum n => rfl

theorem comps_stable (ts : PTypeList)
    (h1 : anySet (canonComponents ts) = false)
    (h2 : setFreeTuplesList (canonComponents ts) = true) :
    canonComponents (canonComponents ts) = canonComponents ts := by
  cases ts with
  | nil => rfl
  | cons t ts =>
      rw [canonComponents_cons] at h1 h2 ⊢
      simp only [anySet, Bool.or_eq_false_iff] at h1
      simp only [setFreeTuplesList, Bool.and_eq_true] at h2
      rw [canonComponents_cons,
          stripSet_of_not_isSet h1.1]
      have hcc : canonicalize (canonicalize (stripSet t))
          = canonicalize (stripSet t) := by
        cases t with
        | setT u => exact canon_stable u h2.1
        | bits n s => exact canon_stable (.bits n s) h2.1
        | boolean => exact canon_stable .boolean h2.1
        | stringT => exact canon_stable .stringT h2.1
        | infInt => exact canon_stable .infInt h2.1
        | errorT => exact canon_stable .errorT h2.1
        | matchKind => exact canon_stable .matchKind h2.1
        | stateT => exact canon_stable .stateT h2.1
        | voidT => exact canon_stable .voidT h2.1
        | dontcare => exact canon_stable .dontcare h2.1
        | varbits n => exact canon_stable (.varbits n) h2.1
        | enumT n => exact canon_stable (.enumT n) h2.1
        | actionEnum n => exact canon_stable (.actionEnum n) h2.1
        | stackT e sz => exact canon_stable (.stackT e sz) h2.1
        | tupleT comps => exact canon_stable (.tupleT comps) h2.1
        | headerT n fs => exact canon_stable (.headerT n fs) h2.1
        | structT n fs => exact canon_stable (.structT n fs) h2.1
        | unionT n fs => exact canon_stable (.unionT n fs) h2.1
      rw [hcc, comps_stable ts h1.2 h2.2]

theorem fields_stable (fs : FieldList)
    (h : setFreeTuplesFields (canonFields fs) = true) :
    canonFields (canonFields fs) = canonFields fs := by
  cases fs with
  | fnil => rfl
  | fcons n t ts =>
      simp only [canonFields, setFreeTuplesFields, Bool.and_eq_true] at h
      simp only [canonFields]
      rw [canon_stable t h.1, fields_stable ts h.2]
end

/-- Conversion from Lean lists of types to tuple component lists. -/
def ofList : List PType → PTypeList
  | [] => .nil
  | t :: ts => .cons t (ofList ts)

theorem anySet_ofList (comps : List PType) :
    anySet (ofList comps) = comps.any isSet := by
  induction comps with
  | nil => rfl
  | cons t ts ih => simp [ofList, anySet, ih, List.any_cons]

theorem canonComponents_ofList (comps : List PType) :
    canonComponents (ofList comps)
      = ofList (comps.map fun t => canonicalize (stripSet t)) := by
  induction comps with
  | nil => rfl
  | cons t ts ih =>
      rw [List.map_cons, ofList, ofList, canonComponents_cons, ih]

/-- Claim C1, counterexample: canonicalize is not idempotent.  On the
tuple type tuple(set(set(bool))) the first canonicalization strips one
set wrapper off the component and lifts it outside the tuple, giving
set(tuple(set(bool))); a second canonicalization strips and lifts
again, giving set(set(tuple(bool))), a different type. -/
theorem canonicalize_not_idempotent_on_nested_set :
    canonicalize (canonicalize
        (.tupleT (.cons (.setT (.setT .boolean)) .nil))) ≠
      canonicalize (.tupleT (.cons (.setT (.setT .boolean)) .nil)) := by
  decide

/-- Claim C1 (amended): canonicalize is idempotent on every type of the
structural fragment whose canonical form has no Type_Set as a direct
component of a Type_Tuple.  Without that restriction idempotence fails,
because the Type_Tuple case strips exactly one Type_Set wrapper per
component and re-wraps the tuple, so a component that is still a set
after one canonicalization (a nested set, or a tuple that itself lifts
to a set) is lifted again by a second run. -/
theorem canonicalize_idempotent_of_setFreeTuples (t : PType)
    (h : setFreeTuples (canonicalize t) = true) :
    canonicalize (canonicalize t) = canonicalize t :=
  canon_stable t h

/-- Witness for claim C1: a concrete type (a tuple with one
singly-nested set component) satisfying the hypothesis, on which
canonicalize is idempotent. -/
theorem canonicalize_idempotent_witness :
    setFreeTuples (canonicalize
        (.tupleT (.cons (.setT .boolean) (.cons (.bits 8 false) .nil)))) = true ∧
    canonicalize (canonicalize
        (.tupleT (.cons (.setT .boolean) (.cons (.bits 8 false) .nil)))) =
      canonicalize (.tupleT (.cons (.setT .boolean) (.cons (.bits 8 false) .nil))) :=
  ⟨by decide, canonicalize_idempotent_of_setFreeTuples _ (by decide)⟩

/-- Claim C3: canonicalizing a tuple type canonicalizes each component
after replacing any Type_Set component by its element type; when some
component is a Type_Set the resulting tuple is wrapped in a Type_Set
(set-of-tuple lifting of a tuple-of-sets), and when no component is a
set the result is the (interned) canonical tuple itself. -/
theorem canonicalize_tuple_spec (comps : List PType) :
    canonicalize (.tupleT (ofList comps)) =
      if comps.any isSet then
        .setT (.tupleT (ofList (comps.map fun t => canonicalize (stripSet t))))
      else
        .tupleT (ofList (comps.map fun t => canonicalize (stripSet t))) := by
  have h : canonicalize (.tupleT (ofList comps))
      = if anySet (ofList comps) then
          .setT (.tupleT (canonComponents (ofList comps)))
        else .tupleT (canonComponents (ofList comps)) := rfl
  rw [h, anySet_ofList, canonComponents_ofList]

/-- The cast admissibility test (TypeInference.canCastBetween).
Mirrors the C++ decision chain: a
source identical to the destination; bits to bits with equal size or,
failing that, equal signedness; bits to bool and bool to bits when the
bits type is bit of width 1; everything else is not castable. -/
def canCastBetween (dest src : PType) : Bool :=
  if src = dest then true
  else
    match src with
    | .bits fsize fsigned =>
        match dest with
        | .bits tsize tsigned =>
            if fsize = tsize then true
            else if fsigned = tsigned then true
            else false
        | .boolean => fsize == 1 && !fsigned
        | _ => false
    | .boolean =>
        match dest with
        | .bits tsize tsigned => tsize == 1 && !tsigned
        | _ => false
    | _ => false

/-- Outcome of the Cast postorder visitor: whether an illegal-cast type
error is reported, and the type recorded for the cast expression. -/
structure CastOutcome where
  errorReported : Bool
  recordedType : PType
deriving DecidableEq, Repr

/-- The Cast postorder visitor of TypeInference.  castType is the
canonicalized destination type, sourceType the type of the operand,
destSurface the syntactic destination type (the sourceType after a
successful coercion of the operand through assignment), and
assignChanged says whether the unification-guided assignment coercion
rewrote the operand.  The cast type is recorded in every case; the
illegal-cast error is reported when the pair is not admitted by
canCastBetween either before or after the coercion attempt. -/
def postorderCast (castType sourceType destSurface : PType)
    (assignChanged : Bool) : CastOutcome :=
  if canCastBetween castType sourceType then
    { errorReported := false, recordedType := castType }
  else
    let sourceType2 := if assignChanged then destSurface else sourceType
    { errorReported := !canCastBetween castType sourceType2,
      recordedType := castType }

/-- Claim C6: canCastBetween(dest, src) holds exactly for identical
types, bits-to-bits with equal size or equal signedness, bit of width 1
unsigned to bool, and bool to bit of width 1 unsigned; and the Cast
visitor reports an illegal-cast error exactly when the pair is not
admitted before the assignment coercion and still not admitted after
it. -/
theorem canCastBetween_and_cast_spec :
    (∀ dest src : PType,
      canCastBetween dest src = true ↔
        (dest = src ∨
         (∃ n s m t, src = .bits n s ∧ dest = .bits m t ∧ (n = m ∨ s = t)) ∨
         (src = .bits 1 false ∧ dest = .boolean) ∨
         (src = .boolean ∧ dest = .bits 1 false))) ∧
    (∀ (castType sourceType destSurface : PType) (assignChanged : Bool),
      (postorderCast castType sourceType destSurface assignChanged).errorReported
          = true ↔
        (canCastBetween castType sourceType = false ∧
         canCastBetween castType
           (if assignChanged then destSurface else sourceType) = false)) := by
  constructor
  · intro dest src
    constructor
    · intro hb
      by_cases h : src = dest
      · exact Or.inl h.symm
      · unfold canCastBetween at hb
        rw [if_neg h] at hb
        right
        cases src
        next fs fg =>
          cases dest
          next ts tg =>
            left
            refine ⟨fs, fg, ts, tg, rfl, rfl, ?_⟩
            change (if fs = ts then true
                    else if fg = tg then true else false) = true at hb
            by_cases h1 : fs = ts
            · exact Or.inl h1
            · rw [if_neg h1] at hb
              by_cases h2 : fg = tg
              · exact Or.inr h2
              · rw [if_neg h2] at hb
                exact Bool.noConfusion hb
          next =>
            right; left
            change (fs == 1 && !fg) = true at hb
            simp only [Bool.and_eq_true, beq_iff_eq, Bool.not_eq_true'] at hb
            rw [hb.1, hb.2]
            exact ⟨rfl, rfl⟩
          all_goals exact Bool.noConfusion hb
        next =>
          cases dest
          next ts tg =>
            right; right
            change (ts == 1 && !tg) = true at hb
            simp only [Bool.and_eq_true, beq_iff_eq, Bool.not_eq_true'] at hb
            rw [hb.1, hb.2]
            exact ⟨rfl, rfl⟩
          all_goals exact Bool.noConfusion hb
        all_goals exact Bool.noConfusion hb
    · rintro (hid | ⟨n, s, m, t, rfl, rfl, hor⟩ | ⟨rfl, rfl⟩ | ⟨rfl, rfl⟩)
      · subst hid
        unfold canCastBetween
        rw [if_pos rfl]
      · unfold canCastBetween
        by_cases h : PType.bits n s = PType.bits m t
        · rw [if_pos h]
        · rw [if_neg h]
          show (if n = m then true else if s = t then true else false) = true
          rcases hor with h1 | h2
          · rw [if_pos h1]
          · by_cases h1 : n = m
            · rw [if_pos h1]
            · rw [if_neg h1, if_pos h2]
      · unfold canCastBetween
        rw [if_neg (by simp)]
        rfl
      · unfold canCastBetween
        rw [if_neg (by simp)]
        rfl
  · intro castType sourceType destSurface assignChanged
    by_cases h1 : canCastBetween castType sourceType
    · simp [postorderCast, h1]
    · have h1f : canCastBetween castType sourceType = false := by simpa using h1
      by_cases h2 : canCastBetween castType
          (if assignChanged then destSurface else sourceType)
      · simp [postorderCast, h1f, h2]
      · have h2f : canCastBetween castType
            (if assignChanged then destSurface else sourceType) = false := by
          simpa using h2
        simp [postorderCast, h1f, h2f]

/-- Smallest value of the 32-bit C machine int. -/
def intMin : Int := -(2 ^ 31)

/-- Largest value of the 32-bit C machine int. -/
def intMax : Int := 2 ^ 31 - 1

/-- The fitsInt test of IR constants: the arbitrary-precision value fits in a
machine int. -/
def fitsInt (v : Int) : Bool := decide (intMin ≤ v) && decide (v ≤ intMax)

/-- What the Slice postorder visitor records on success: the result
type, the l-value flag and the compile-time-constant flag. -/
structure SliceResult where
  rtype : PType
  isLValue : Bool
  isCompileTimeConstant : Bool
deriving DecidableEq, Repr

/-- The Slice postorder visitor of TypeInference for e0[e1:e2].  The
arguments are the type of e0, the constant values of e1 and e2 (none
when the index expression is not a Constant), and the l-value and
compile-time-constant flags of e0.  Follows the C++ error chain: e0
must have a bits type; both indices must be constants that fit in a
machine int, be non-negative, be smaller than the width, and satisfy
lsb less than or equal to msb; on success the recorded type is the
canonical bits type of width msb - lsb + 1 with the signedness of e0,
and the l-value and compile-time-constant flags are inherited from e0.
Every violation reports a type error and records nothing (none). -/
def postorderSlice (t : PType) (e1 e2 : Option Int) (lval ctc : Bool) :
    Option SliceResult :=
  match t with
  | .bits n s =>
    match e1, e2 with
    | some m, some l =>
      if !fitsInt m then none
      else if !fitsInt l then none
      else if m < 0 then none
      else if l < 0 then none
      else if m ≥ n then none
      else if l ≥ n then none
      else if l > m then none
      else some ⟨canonicalize (.bits (m - l + 1) s), lval, ctc⟩
    | _, _ => none
  | _ => none

/-- Claim C4: slice type checking succeeds exactly when the sliced
expression has a bits type of some width n and both indices are
constants with 0 ≤ lsb ≤ msb < n (widths of IR bit types are machine
ints, whence the bound on n); on success the recorded type is the bits
type of width msb - lsb + 1 with the same signedness, and the l-value
and compile-time-constant flags are those of the sliced expression. -/
theorem postorderSlice_spec (t : PType) (e1 e2 : Option Int) (lval ctc : Bool)
    (r : SliceResult) (hw : ∀ n s, t = .bits n s → n ≤ intMax) :
    postorderSlice t e1 e2 lval ctc = some r ↔
      ∃ n s m l, t = .bits n s ∧ e1 = some m ∧ e2 = some l ∧
        0 ≤ l ∧ l ≤ m ∧ m < n ∧
        r = ⟨.bits (m - l + 1) s, lval, ctc⟩ := by
  cases t with
  | bits n s =>
      have hn : n ≤ intMax := hw n s rfl
      cases e1 with
      | none => simp [postorderSlice]
      | some m =>
        cases e2 with
        | none => simp [postorderSlice]
        | some l =>
          constructor
          · intro hr
            simp only [postorderSlice] at hr
            split_ifs at hr with hf1 hf2 h1 h2 h3 h4 h5
            refine ⟨n, s, m, l, rfl, rfl, rfl, by omega, by omega, by omega, ?_⟩
            simp only [Option.some.injEq] at hr
            rw [← hr]
            rfl
          · rintro ⟨n2, s2, m2, l2, ht, he1, he2, hl0, hlm, hmn, hr⟩
            injection ht with hn2 hs2
            subst hn2
            subst hs2
            injection he1 with hm2
            subst hm2
            injection he2 with hl2
            subst hl2
            have hf1 : fitsInt m = true := by
              simp only [fitsInt, Bool.and_eq_true, decide_eq_true_eq]
              unfold intMin intMax at hn ⊢
              omega
            have hf2 : fitsInt l = true := by
              simp only [fitsInt, Bool.and_eq_true, decide_eq_true_eq]
              unfold intMin intMax at hn ⊢
              omega
            simp only [postorderSlice]
            rw [if_neg (show ¬(!fitsInt m) = true by rw [hf1]; decide),
                if_neg (show ¬(!fitsInt l) = true by rw [hf2]; decide),
                if_neg (show ¬m < 0 by omega), if_neg (show ¬l < 0 by omega),
                if_neg (show ¬m ≥ n by omega), if_neg (show ¬l ≥ n by omega),
                if_neg (show ¬l > m by omega), hr]
            rfl
  | boolean => simp [postorderSlice]
  | stringT => simp [postorderSlice]
  | infInt => simp [postorderSlice]
  | errorT => simp [postorderSlice]
  | matchKind => simp [postorderSlice]
  | stateT => simp [postorderSlice]
  | voidT => simp [postorderSlice]
  | dontcare => simp [postorderSlice]
  | varbits n => simp [postorderSlice]
  | enumT n => simp [postorderSlice]
  | actionEnum n => simp [postorderSlice]
  | setT e => simp [postorderSlice]
  | stackT e sz => simp [postorderSlice]
  | tupleT comps => simp [postorderSlice]
  | headerT n fs => simp [postorderSlice]
  | structT n fs => simp [postorderSlice]
  | unionT n fs => simp [postorderSlice]

/-- Witness for claim C4: slicing bit 8 as e0[5:2] succeeds with type
bit 4, inheriting the flags of e0. -/
theorem postorderSlice_witness :
    postorderSlice (.bits 8 false) (some 5) (some 2) true false
        = some ⟨.bits 4 false, true, false⟩ ↔
      ∃ n s m l, (PType.bits 8 false : PType) = .bits n s ∧
        (some 5 : Option Int) = some m ∧ (some 2 : Option Int) = some l ∧
        0 ≤ l ∧ l ≤ m ∧ m < n ∧
        (⟨.bits 4 false, true, false⟩ : SliceResult)
          = ⟨.bits (m - l + 1) s, true, false⟩ :=
  postorderSlice_spec (.bits 8 false) (some 5) (some 2) true false
    ⟨.bits 4 false, true, false⟩
    (by intro n s h; injection h with a b; rw [← a]; decide)

/-- The relation operator kinds (Equ, Neq, Lss, Leq, Grt, Geq). -/
inductive RelOp where
  | equ
  | neq
  | lss
  | leq
  | grt
  | geq
deriving DecidableEq, Repr

/-- The equTest flag of the Operation_Relation postorder visitor: the
node is Equ or Neq. -/
def isEquTest : RelOp → Bool
  | .equ => true
  | .neq => true
  | _ => false

/-- Whether a type is Type_InfInt. -/
def isInfInt : PType → Bool
  | .infInt => true
  | _ => false

/-- Whether a type is Type_Bits. -/
def isBits : PType → Bool
  | .bits _ _ => true
  | _ => false

/-- Whether a type is Type_Void. -/
def isVoid : PType → Bool
  | .voidT => true
  | _ => false

/-- Whether a type is Type_Varbits. -/
def isVarbits : PType → Bool
  | .varbits _ => true
  | _ => false

/-- Modelled from the spec: TypeMap.equivalent (defined in the
registry, outside this translation unit) is structural equality,
comparing variants, all scalar attributes and compound structure
recursively, and declaration identity for nominal types.  On the
structural fragment, where nominal types are identified by name, this
is equality. -/
def equivalent (a b : PType) : Bool := a == b

/-- Modelled from the spec: membership in the Type_Base class of the
external IR node model (the scalar base types of the data model).  The
claim theorem below holds for any choice of this set, since a base
type equivalent to another is that same type. -/
def isBase : PType → Bool
  | .bits _ _ => true
  | .varbits _ => true
  | .boolean => true
  | .stringT => true
  | .infInt => true
  | .voidT => true
  | .stateT => true
  | .matchKind => true
  | .dontcare => true
  | _ => false

/-- The narrowing step of the Operation_Relation postorder visitor: an
InfInt operand facing a Bits operand is rewritten (as a constant) to
that Bits type, so both sides continue with the Bits type. -/
def relNarrow (ltype rtype : PType) : PType × PType :=
  if isInfInt ltype && isBits rtype then (rtype, rtype)
  else if isInfInt rtype && isBits ltype then (ltype, ltype)
  else (ltype, rtype)

/-- The Operation_Relation postorder visitor of TypeInference, on the
types of the two operands.  After the InfInt narrowing step: for Equ
and Neq the operation is defined when the two types are equivalent and
the left type is neither Void nor Varbits, or when both are base types
and equivalent; for the ordering operators both types must be the same
Bits type.  When defined, the recorded type is Boolean (some); when
not, a type error is reported and nothing is recorded (none). -/
def postorderRelation (op : RelOp) (ltype rtype : PType) : Option PType :=
  let nar := relNarrow ltype rtype
  let lt := nar.1
  let rt := nar.2
  if isEquTest op then
    if (equivalent lt rt && (!isVoid lt && !isVarbits lt)) ||
       (isBase lt && isBase rt && equivalent lt rt) then
      some .boolean
    else none
  else
    if !isBits lt || !isBits rt || !(lt == rt) then none
    else some .boolean

/-- Claim C5: for Equ and Neq, type checking succeeds with recorded
type Boolean exactly when, after narrowing an InfInt operand facing a
Bits operand to that Bits type, the two operand types are structurally
equivalent and either are a base type or are neither Void nor Varbits
(equivalence on composite non-Void non-Varbits types, plus the
base-versus-base second branch, which is what keeps equivalent Void or
Varbits operands defined); on every other pair nothing is recorded. -/
theorem isVoid_eq_false_iff (t : PType) : isVoid t = false ↔ t ≠ .voidT := by
  cases t <;> simp [isVoid]

theorem relCondition_iff (lt rt : PType) :
    ((equivalent lt rt && (!isVoid lt && !isVarbits lt)) ||
     (isBase lt && isBase rt && equivalent lt rt)) = true ↔
    (lt = rt ∧ (isBase lt = true ∨ (lt ≠ .voidT ∧ isVarbits lt = false))) := by
  by_cases heq : lt = rt
  · subst heq
    simp only [equivalent, beq_self_eq_true, Bool.true_and, Bool.and_true,
      true_and]
    cases lt <;> simp [isVoid, isVarbits, isBase]
  · have hne : equivalent lt rt = false := by
      simp [equivalent, heq]
    simp [hne, heq]

theorem postorderRelation_of_equTest (op : RelOp) (hop : isEquTest op = true)
    (ltype rtype : PType) :
    postorderRelation op ltype rtype =
      if (equivalent (relNarrow ltype rtype).1 (relNarrow ltype rtype).2 &&
          (!isVoid (relNarrow ltype rtype).1 &&
           !isVarbits (relNarrow ltype rtype).1)) ||
         (isBase (relNarrow ltype rtype).1 && isBase (relNarrow ltype rtype).2 &&
          equivalent (relNarrow ltype rtype).1 (relNarrow ltype rtype).2) then
        some .boolean
      else none := by
  simp only [postorderRelation, hop, if_true]

theorem postorderRelation_eq_spec (op : RelOp) (ltype rtype : PType)
    (hop : op = .equ ∨ op = .neq) :
    (postorderRelation op ltype rtype = some .boolean ↔
      ((relNarrow ltype rtype).1 = (relNarrow ltype rtype).2 ∧
       (isBase (relNarrow ltype rtype).1 = true ∨
        ((relNarrow ltype rtype).1 ≠ .voidT ∧
         isVarbits (relNarrow ltype rtype).1 = false)))) ∧
    (postorderRelation op ltype rtype = some .boolean ∨
     postorderRelation op ltype rtype = none) := by
  have hequ : isEquTest op = true := by
    rcases hop with rfl | rfl <;> rfl
  rw [postorderRelation_of_equTest op hequ]
  by_cases hc : ((equivalent (relNarrow ltype rtype).1 (relNarrow ltype rtype).2 &&
      (!isVoid (relNarrow ltype rtype).1 && !isVarbits (relNarrow ltype rtype).1)) ||
      (isBase (relNarrow ltype rtype).1 && isBase (relNarrow ltype rtype).2 &&
       equivalent (relNarrow ltype rtype).1 (relNarrow ltype rtype).2)) = true
  · rw [if_pos hc]
    refine ⟨⟨fun _ => (relCondition_iff _ _).mp hc, fun _ => rfl⟩, Or.inl rfl⟩
  · rw [if_neg hc]
    refine ⟨⟨fun h => Option.noConfusion h,
      fun h => absurd ((relCondition_iff _ _).mpr h) hc⟩, Or.inr rfl⟩

/-- Witness for claim C5: comparing a bit 8 operand with an InfInt
constant narrows the constant and succeeds with type Boolean. -/
theorem postorderRelation_witness :
    (postorderRelation .equ (.bits 8 false) .infInt = some .boolean ↔
      ((relNarrow (.bits 8 false) .infInt).1 = (relNarrow (.bits 8 false) .infInt).2 ∧
       (isBase (relNarrow (.bits 8 false) .infInt).1 = true ∨
        ((relNarrow (.bits 8 false) .infInt).1 ≠ .voidT ∧
         isVarbits (relNarrow (.bits 8 false) .infInt).1 = false)))) ∧
    (postorderRelation .equ (.bits 8 false) .infInt = some .boolean ∨
     postorderRelation .equ (.bits 8 false) .infInt = none) :=
  postorderRelation_eq_spec .equ (.bits 8 false) .infInt (Or.inl rfl)

/-- The end_apply hook of TypeInference: at the end of a traversal, if the pass was
constructed with readOnly set and the returned root is not structurally
equal to the initial root, the BUG macro aborts the run (none);
otherwise the run completes and returns the root (the registry
update that follows does not touch the AST). -/
def end_apply {Node : Type} [DecidableEq Node] (readOnly : Bool)
    (initialNode node : Node) : Option Node :=
  if readOnly && !(node = initialNode : Bool) then none
  else some node

/-- Claim C2: on a readOnly traversal that completes (end_apply returns
a root instead of aborting on its structural-equality assertion), the
returned AST root is structurally equal to the input root. -/
theorem end_apply_readOnly_eq {Node : Type} [DecidableEq Node]
    (initialNode node root : Node)
    (h : end_apply true initialNode node = some root) :
    root = initialNode ∧ root = node := by
  by_cases heq : node = initialNode
  · have : end_apply true initialNode node = some node := by
      simp [end_apply, heq]
    rw [this] at h
    injection h with h2
    subst h2
    exact ⟨heq, rfl⟩
  · have : end_apply true initialNode node = none := by
      simp [end_apply, heq]
    rw [this] at h
    exact Option.noConfusion h

/-- Witness for claim C2: a completed readOnly run on a concrete root
returns that same root. -/
theorem end_apply_readOnly_eq_witness :
    (0 : Nat) = 0 ∧ (0 : Nat) = 0 :=
  end_apply_readOnly_eq 0 0 0 (by decide)

/-- Whether a type is Type_Enum. -/
def isEnum : PType → Bool
  | .enumT _ => true
  | _ => false

/-- Whether a type is Type_Error. -/
def isTypeError : PType → Bool
  | .errorT => true
  | _ => false

/-- Whether a type is Type_Boolean. -/
def isBoolean : PType → Bool
  | .boolean => true
  | _ => false

/-- The KeyElement postorder visitor of TypeInference, on the type of
the key expression and the type recorded for the match-type expression
(none when the registry has no entry; in that case the type lookup
itself has already reported an error).  It reports an error when the
key type is not Bits, Enum, Error or Boolean, and an error when the
recorded match type exists and is not MatchKind; the element itself is
returned unchanged.  The result is the pair of reported error flags. -/
def postorderKeyElement (ktype : PType) (mtype : Option PType) :
    Bool × Bool :=
  let keyErr := !(isBits ktype || isEnum ktype || isTypeError ktype ||
                  isBoolean ktype)
  let matchErr :=
    match mtype with
    | none => false
    | some t => !(t = .matchKind : Bool)
  (keyErr, matchErr)

/-- Claim C9: for a table key element, a type error is reported on the
key expression unless its type is Bits, Enum, Error or Boolean, and a
type error is reported on the match-type expression unless its recorded
type is MatchKind (when no type was recorded, the failed type lookup
has itself already reported an error, and the visitor adds none). -/
theorem postorderKeyElement_spec (ktype : PType) (mtype : Option PType) :
    ((postorderKeyElement ktype mtype).1 = false ↔
      (isBits ktype = true ∨ isEnum ktype = true ∨ isTypeError ktype = true ∨
       isBoolean ktype = true)) ∧
    ((postorderKeyElement ktype mtype).2 = true ↔
      ∃ t, mtype = some t ∧ t ≠ .matchKind) := by
  constructor
  · cases hb : isBits ktype <;> cases he : isEnum ktype <;>
      cases ht : isTypeError ktype <;> cases hbo : isBoolean ktype <;>
      simp_all [postorderKeyElement]
  · cases mtype with
    | none => simp [postorderKeyElement]
    | some t =>
        by_cases h : t = PType.matchKind
        · subst h
          simp [postorderKeyElement]
        · simp [postorderKeyElement, h]

/-- Whether a type is Type_Header. -/
def isHeader : PType → Bool
  | .headerT _ _ => true
  | _ => false

/-- Whether a type is Type_Union. -/
def isUnion : PType → Bool
  | .unionT _ _ => true
  | _ => false

/-- The Type_Stack postorder visitor of TypeInference, on the element
type and size of the stack type (the size is the constant value of the
size expression, none when it is not a constant, i.e. sizeKnown is
false).  The visited type is canonicalized (canonical stacks keep the
size and canonicalize the element); an error is reported when the size
is not a known constant, and an error is reported when the canonical
element type is neither a header nor a union type.  The result is the
pair of reported error flags. -/
def postorderTypeStack (elementType : PType) (size : Option Int) :
    Bool × Bool :=
  let canonElem := canonicalize elementType
  (size.isNone, !(isHeader canonElem || isUnion canonElem))

/-- Claim C10: visiting a header-stack type reports a type error
exactly when the size of the stack is not a known constant, and reports
a type error exactly when the canonicalized element type is neither a
Header nor a Union type. -/
theorem postorderTypeStack_spec (elementType : PType) (size : Option Int) :
    ((postorderTypeStack elementType size).1 = true ↔ size = none) ∧
    ((postorderTypeStack elementType size).2 = false ↔
      (isHeader (canonicalize elementType) = true ∨
       isUnion (canonicalize elementType) = true)) := by
  constructor
  · cases size <;> simp [postorderTypeStack]
  · cases hh : isHeader (canonicalize elementType) <;>
      cases hu : isUnion (canonicalize elementType) <;>
      simp_all [postorderTypeStack]

/-- An action parameter: its name and its direction. -/
structure ActParam where
  name : String
  dir : Direction
deriving DecidableEq, Repr

/-- What the action-call loop inspects about an argument: whether it is
an l-value (directions Out and InOut require one). -/
structure ArgInfo where
  isLValue : Bool
deriving DecidableEq, Repr

/-- The type errors the action-call check can report. -/
inductive ActionCallError where
  | mustBeBound (p : ActParam)
  | controlPlaneBound (p : ActParam)
  | notLeftValue
  | tooManyArguments
deriving DecidableEq, Repr

/-- The parameter/argument loop of TypeInference.actionCall.  Walks the
declared parameters alongside the argument list: once the arguments run
out, every remaining parameter is collected into the parameter list of
the resulting Type_Action, and an error is reported for it unless its
direction is None and the call is inside the actions property of a
table; while arguments remain, a parameter of direction None must not
be bound inside the actions list (it is set by the control plane), and
an Out or InOut parameter requires an l-value argument.  Leftover
arguments after the parameters are exhausted report a too-many
error.  Returns the unbound parameter tail and the reported errors. -/
def actionCallLoop (inActionList : Bool) :
    List ActParam → List ArgInfo → List ActParam × List ActionCallError
  | [], [] => ([], [])
  | [], _ :: _ => ([], [.tooManyArguments])
  | p :: ps, [] =>
      let rest := actionCallLoop inActionList ps []
      (p :: rest.1,
       (if p.dir ≠ Direction.dirNone ∨ inActionList = false then
          [.mustBeBound p]
        else []) ++ rest.2)
  | p :: ps, _a :: args =>
      let here :=
        if p.dir = Direction.dirNone then
          (if inActionList then [.controlPlaneBound p] else [])
        else if (p.dir = Direction.dirOut ∨ p.dir = Direction.dirInOut) ∧
            _a.isLValue = false then
          [.notLeftValue]
        else []
      let rest := actionCallLoop inActionList ps args
      (rest.1, here ++ rest.2)

/-- Claim C7: calling an action with k arguments against n declared
parameters (k ≤ n) records an Action type whose parameter list is
exactly the unbound tail of the declared parameters; inside the actions
list of a table, every unbound tail parameter of direction other than
None reports a must-be-bound error and every bound parameter of
direction None reports a control-plane error, while outside the actions
list every unbound parameter reports a must-be-bound error. -/
theorem actionCall_spec (inActionList : Bool) (params : List ActParam)
    (args : List ArgInfo) (hk : args.length ≤ params.length) :
    (actionCallLoop inActionList params args).1 = params.drop args.length ∧
    (∀ p ∈ params.drop args.length,
        (p.dir ≠ Direction.dirNone ∨ inActionList = false) →
        ActionCallError.mustBeBound p
          ∈ (actionCallLoop inActionList params args).2) ∧
    (inActionList = true →
        ∀ p ∈ params.take args.length, p.dir = Direction.dirNone →
        ActionCallError.controlPlaneBound p
          ∈ (actionCallLoop inActionList params args).2) := by
  induction params generalizing args with
  | nil =>
      have : args = [] := List.eq_nil_of_length_eq_zero (Nat.le_zero.mp hk)
      subst this
      refine ⟨rfl, ?_, ?_⟩
      · intro p hp
        simp at hp
      · intro _ p hp
        simp at hp
  | cons p ps ih =>
      cases args with
      | nil =>
          obtain ⟨ih1, ih2, _⟩ := ih [] (Nat.zero_le _)
          refine ⟨?_, ?_, ?_⟩
          · simp only [actionCallLoop, List.drop_zero]
            rw [ih1]
            simp
          · intro q hq hcond
            simp only [actionCallLoop, List.mem_append]
            rcases List.mem_cons.mp hq with rfl | hq2
            · left
              rw [if_pos hcond]
              exact List.mem_singleton.mpr rfl
            · right
              exact ih2 q (by simpa using hq2) hcond
          · intro _ q hq
            simp at hq
      | cons a as =>
          have hk2 : as.length ≤ ps.length := by
            simpa using hk
          obtain ⟨ih1, ih2, ih3⟩ := ih as hk2
          refine ⟨?_, ?_, ?_⟩
          · simpa only [actionCallLoop, List.drop_succ_cons] using ih1
          · intro q hq hcond
            simp only [actionCallLoop, List.mem_append]
            right
            exact ih2 q (by simpa using hq) hcond
          · intro hal q hq hdir
            simp only [actionCallLoop, List.mem_append]
            rcases List.mem_cons.mp (by simpa using hq) with rfl | hq2
            · left
              rw [if_pos hdir, if_pos hal]
              exact List.mem_singleton.mpr rfl
            · right
              exact ih3 hal q hq2 hdir

/-- Witness for claim C7: an action with parameters (a : In, b : None)
called with one l-value argument satisfies the arity hypothesis, and
the claim theorem applies: the unbound tail is exactly the
None-direction parameter b. -/
theorem actionCall_witness :
    ([(⟨true⟩ : ArgInfo)].length ≤
      [(⟨"a", Direction.dirIn⟩ : ActParam), ⟨"b", Direction.dirNone⟩].length) ∧
    ((actionCallLoop true
        [⟨"a", Direction.dirIn⟩, ⟨"b", Direction.dirNone⟩] [⟨true⟩]).1 =
      [(⟨"a", Direction.dirIn⟩ : ActParam), ⟨"b", Direction.dirNone⟩].drop
        [(⟨true⟩ : ArgInfo)].length ∧
     (∀ p ∈ [(⟨"a", Direction.dirIn⟩ : ActParam),
              ⟨"b", Direction.dirNone⟩].drop [(⟨true⟩ : ArgInfo)].length,
        (p.dir ≠ Direction.dirNone ∨ true = false) →
        ActionCallError.mustBeBound p
          ∈ (actionCallLoop true
              [⟨"a", Direction.dirIn⟩, ⟨"b", Direction.dirNone⟩] [⟨true⟩]).2) ∧
     (true = true →
        ∀ p ∈ [(⟨"a", Direction.dirIn⟩ : ActParam),
                ⟨"b", Direction.dirNone⟩].take [(⟨true⟩ : ArgInfo)].length,
        p.dir = Direction.dirNone →
        ActionCallError.controlPlaneBound p
          ∈ (actionCallLoop true
              [⟨"a", Direction.dirIn⟩, ⟨"b", Direction.dirNone⟩] [⟨true⟩]).2)) :=
  ⟨by decide,
   actionCall_spec true
     [⟨"a", Direction.dirIn⟩, ⟨"b", Direction.dirNone⟩] [⟨true⟩] (by decide)⟩

/-- A method of an extern type: its name, its abstract flag and its
(method) type as recorded in the registry. -/
structure ExtMethod where
  name : String
  isAbstract : Bool
  mtype : PType
deriving DecidableEq, Repr

/-- A function supplied by the initializer of an instance declaration:
its name, the number of its type parameters and its recorded type. -/
structure InitFunc where
  name : String
  typeParamCount : Nat
  ftype : PType
deriving DecidableEq, Repr

/-- Modelled from the spec: the constraint solver
(TypeConstraints.solve, outside this translation unit).  For the
abstract-method check both sides are ground non-generic method types,
on which unification is structural equality and the computed
substitution is the identity (the call site asserts, via BUG_CHECK,
that the substitution is the identity). -/
def unifyIdentity (a b : PType) : Bool := a == b

/-- Lookup in the name map of abstract methods (NameMap.find): the
first method with the given name. -/
def lookupVirt (n : String) : List ExtMethod → Option ExtMethod
  | [] => none
  | m :: ms => if m.name = n then some m else lookupVirt n ms

/-- Removal from the name map of abstract methods (NameMap.erase): drop
the first method with the given name. -/
def eraseVirt (n : String) : List ExtMethod → List ExtMethod
  | [] => []
  | m :: ms => if m.name = n then ms else m :: eraseVirt n ms

/-- The loop of TypeInference.checkAbstractMethods over the functions
of the initializer, carrying the not-yet-implemented abstract methods:
a generic function fails; a function whose name has no pending abstract
method fails; a function whose type does not unify with the abstract
method type fails; otherwise the method is checked off; at the end
every abstract method must have been implemented. -/
def checkAbstractLoop : List InitFunc → List ExtMethod → Bool
  | [], virt => virt.isEmpty
  | f :: fs, virt =>
      if f.typeParamCount ≠ 0 then false
      else
        match lookupVirt f.name virt with
        | none => false
        | some m =>
            if unifyIdentity m.mtype f.ftype then
              checkAbstractLoop fs (eraseVirt f.name virt)
            else false

/-- The instance check (TypeInference.checkAbstractMethods): collect
the abstract methods of
the extern; succeed immediately when there are none and no initializer
is present; report an error when an initializer is present but the
extern has no abstract methods, or when abstract methods exist but no
initializer is present; otherwise run the checking loop over the
functions of the initializer. -/
def checkAbstractMethods (methods : List ExtMethod)
    (initializer : Option (List InitFunc)) : Bool :=
  let virt := methods.filter (fun m => m.isAbstract)
  match initializer with
  | none => virt.isEmpty
  | some fs => if virt.isEmpty then false else checkAbstractLoop fs virt

theorem lookupVirt_mem {n : String} {virt : List ExtMethod} {m : ExtMethod}
    (h : lookupVirt n virt = some m) : m ∈ virt ∧ m.name = n := by
  induction virt with
  | nil => exact Option.noConfusion h
  | cons v vs ih =>
      by_cases hv : v.name = n
      · rw [lookupVirt, if_pos hv] at h
        injection h with h2
        subst h2
        exact ⟨List.mem_cons_self _ _, hv⟩
      · rw [lookupVirt, if_neg hv] at h
        obtain ⟨h1, h2⟩ := ih h
        exact ⟨List.mem_cons_of_mem _ h1, h2⟩

theorem mem_eraseVirt_or_lookup {n : String} {virt : List ExtMethod}
    {m : ExtMethod} (h : m ∈ virt) :
    m ∈ eraseVirt n virt ∨ lookupVirt n virt = some m := by
  induction virt with
  | nil => simp at h
  | cons v vs ih =>
      by_cases hv : v.name = n
      · rw [eraseVirt, if_pos hv]
        rcases List.mem_cons.mp h with rfl | h2
        · right
          rw [lookupVirt, if_pos hv]
        · left
          exact h2
      · rw [eraseVirt, if_neg hv]
        rcases List.mem_cons.mp h with rfl | h2
        · left
          exact List.mem_cons_self _ _
        · rcases ih h2 with h3 | h3
          · left
            exact List.mem_cons_of_mem _ h3
          · right
            rw [lookupVirt, if_neg hv]
            exact h3

theorem eraseVirt_subset {n : String} {virt : List ExtMethod}
    {m : ExtMethod} (h : m ∈ eraseVirt n virt) : m ∈ virt := by
  induction virt with
  | nil => simp [eraseVirt] at h
  | cons v vs ih =>
      by_cases hv : v.name = n
      · rw [eraseVirt, if_pos hv] at h
        exact List.mem_cons_of_mem _ h
      · rw [eraseVirt, if_neg hv] at h
        rcases List.mem_cons.mp h with rfl | h2
        · exact List.mem_cons_self _ _
        · exact List.mem_cons_of_mem _ (ih h2)

theorem checkAbstractLoop_covers {fs : List InitFunc} {virt : List ExtMethod}
    (h : checkAbstractLoop fs virt = true) :
    ∀ m ∈ virt, ∃ f ∈ fs, f.name = m.name ∧ f.typeParamCount = 0 ∧
      unifyIdentity m.mtype f.ftype = true := by
  induction fs generalizing virt with
  | nil =>
      intro m hm
      rw [checkAbstractLoop] at h
      rw [List.isEmpty_iff] at h
      subst h
      simp at hm
  | cons f fs ih =>
      intro m hm
      rw [checkAbstractLoop] at h
      by_cases htp : f.typeParamCount ≠ 0
      · rw [if_pos htp] at h
        exact Bool.noConfusion h
      · rw [if_neg htp] at h
        split at h
        · exact Bool.noConfusion h
        · rename_i m0 hlook
          by_cases hu : unifyIdentity m0.mtype f.ftype = true
          · rw [if_pos hu] at h
            rcases mem_eraseVirt_or_lookup (n := f.name) hm with h2 | h2
            · obtain ⟨f2, hf2, hprops⟩ := ih h m h2
              exact ⟨f2, List.mem_cons_of_mem _ hf2, hprops⟩
            · have hm0 : m0 = m := by
                rw [hlook] at h2
                injection h2
              subst hm0
              refine ⟨f, List.mem_cons_self _ _,
                ((lookupVirt_mem hlook).2).symm, by omega, hu⟩
          · rw [if_neg hu] at h
            exact Bool.noConfusion h

theorem checkAbstractLoop_names {fs : List InitFunc} {virt : List ExtMethod}
    (h : checkAbstractLoop fs virt = true) :
    ∀ f ∈ fs, ∃ m ∈ virt, m.name = f.name := by
  induction fs generalizing virt with
  | nil =>
      intro f hf
      simp at hf
  | cons f2 fs ih =>
      intro f hf
      rw [checkAbstractLoop] at h
      by_cases htp : f2.typeParamCount ≠ 0
      · rw [if_pos htp] at h
        exact Bool.noConfusion h
      · rw [if_neg htp] at h
        split at h
        · exact Bool.noConfusion h
        · rename_i m0 hlook
          by_cases hu : unifyIdentity m0.mtype f2.ftype = true
          · rw [if_pos hu] at h
            rcases List.mem_cons.mp hf with rfl | hf2
            · obtain ⟨hmem, hname⟩ := lookupVirt_mem hlook
              exact ⟨m0, hmem, hname⟩
            · obtain ⟨m, hm, hname⟩ := ih h f hf2
              exact ⟨m, eraseVirt_subset hm, hname⟩
          · rw [if_neg hu] at h
            exact Bool.noConfusion h

/-- Claim C8: checking an instance declaration against an extern type:
with abstract methods present and no initializer the check errors; with
an initializer present and no abstract methods the check errors; when
the check succeeds, every abstract method is implemented by some
supplied non-generic function of the same name whose type unifies (as
an identity substitution) with the abstract method type; and a supplied
function whose name matches no abstract method makes the check
error. -/
theorem checkAbstractMethods_spec (methods : List ExtMethod) :
    (methods.filter (fun m => m.isAbstract) ≠ [] →
        checkAbstractMethods methods none = false) ∧
    (methods.filter (fun m => m.isAbstract) = [] →
        ∀ fs, checkAbstractMethods methods (some fs) = false) ∧
    (∀ fs, checkAbstractMethods methods (some fs) = true →
        ∀ m ∈ methods, m.isAbstract = true →
          ∃ f ∈ fs, f.name = m.name ∧ f.typeParamCount = 0 ∧
            unifyIdentity m.mtype f.ftype = true) ∧
    (∀ fs f, f ∈ fs →
        (∀ m ∈ methods, m.isAbstract = true → m.name ≠ f.name) →
        checkAbstractMethods methods (some fs) = false) := by
  refine ⟨?_, ?_, ?_, ?_⟩
  · intro hne
    simp only [checkAbstractMethods]
    cases hfil : methods.filter (fun m => m.isAbstract) with
    | nil => exact absurd hfil hne
    | cons a as => rfl
  · intro hemp fs
    simp only [checkAbstractMethods]
    rw [if_pos (List.isEmpty_iff.mpr hemp)]
  · intro fs hchk m hm habs
    have hmem : m ∈ methods.filter (fun m => m.isAbstract) :=
      List.mem_filter.mpr ⟨hm, habs⟩
    simp only [checkAbstractMethods] at hchk
    by_cases hemp : (methods.filter (fun m => m.isAbstract)).isEmpty = true
    · rw [if_pos hemp] at hchk
      exact Bool.noConfusion hchk
    · rw [if_neg hemp] at hchk
      exact checkAbstractLoop_covers hchk m hmem
  · intro fs f hf hnone
    simp only [checkAbstractMethods]
    by_cases hemp : (methods.filter (fun m => m.isAbstract)).isEmpty = true
    · rw [if_pos hemp]
    · rw [if_neg hemp]
      cases hloop : checkAbstractLoop fs (methods.filter (fun m => m.isAbstract)) with
      | false => rfl
      | true =>
          obtain ⟨m, hm, hname⟩ := checkAbstractLoop_names hloop f hf
          obtain ⟨hmem, habs⟩ := List.mem_filter.mp hm
          exact absurd hname (hnone m hmem (by simpa using habs))

/-- Witness for claim C8: an extern with one abstract method named f of
type void-method, together with an initializer supplying a non-generic
function f of the same type, passes the check, and the claim theorem
yields the matching implementation. -/
theorem checkAbstractMethods_witness :
    checkAbstractMethods [⟨"f", true, .voidT⟩] (some [⟨"f", 0, .voidT⟩]) = true ∧
    ∃ g ∈ [(⟨"f", 0, PType.voidT⟩ : InitFunc)],
      g.name = "f" ∧ g.typeParamCount = 0 ∧
      unifyIdentity PType.voidT g.ftype = true :=
  ⟨by decide,
   (checkAbstractMethods_spec [⟨"f", true, .voidT⟩]).2.2.1
     [⟨"f", 0, .voidT⟩] (by decide) ⟨"f", true, .voidT⟩ (by decide) (by decide)⟩

/-- Witness for claim C3: canonicalizing the tuple type
tuple(set(bool), bit 8) at a concrete input: the set component is
replaced by its element type and the tuple is wrapped in a set. -/
theorem canonicalize_tuple_spec_witness :
    canonicalize (.tupleT (ofList [.setT .boolean, .bits 8 false])) =
      if [PType.setT .boolean, PType.bits 8 false].any isSet then
        .setT (.tupleT (ofList ([PType.setT .boolean, PType.bits 8 false].map
          fun t => canonicalize (stripSet t))))
      else
        .tupleT (ofList ([PType.setT .boolean, PType.bits 8 false].map
          fun t => canonicalize (stripSet t))) :=
  canonicalize_tuple_spec [.setT .boolean, .bits 8 false]

/-- Witness for claim C6: the cast admissibility relation evaluated on
the pair from signed bit 8 to unsigned bit 8 (legal: equal sizes). -/
theorem canCastBetween_and_cast_spec_witness :
    (canCastBetween (.bits 8 false) (.bits 8 true) = true ↔
      ((PType.bits 8 false : PType) = .bits 8 true ∨
       (∃ n s m t, (PType.bits 8 true : PType) = .bits n s ∧
         (PType.bits 8 false : PType) = .bits m t ∧ (n = m ∨ s = t)) ∨
       ((PType.bits 8 true : PType) = .bits 1 false ∧
        (PType.bits 8 false : PType) = .boolean) ∨
       ((PType.bits 8 true : PType) = .boolean ∧
        (PType.bits 8 false : PType) = .bits 1 false))) :=
  canCastBetween_and_cast_spec.1 (.bits 8 false) (.bits 8 true)

/-- Witness for claim C9: a key of type bit 4 with match type MatchKind
reports no error on either check. -/
theorem postorderKeyElement_spec_witness :
    ((postorderKeyElement (.bits 4 false) (some .matchKind)).1 = false ↔
      (isBits (.bits 4 false) = true ∨ isEnum (.bits 4 false) = true ∨
       isTypeError (.bits 4 false) = true ∨ isBoolean (.bits 4 false) = true)) ∧
    ((postorderKeyElement (.bits 4 false) (some .matchKind)).2 = true ↔
      ∃ t, (some PType.matchKind : Option PType) = some t ∧ t ≠ .matchKind) :=
  postorderKeyElement_spec (.bits 4 false) (some .matchKind)

/-- Witness for claim C10: a stack of a header type with known size 3
reports neither error. -/
theorem postorderTypeStack_spec_witness :
    ((postorderTypeStack (.headerT "h" .fnil) (some 3)).1 = true ↔
      (some 3 : Option Int) = none) ∧
    ((postorderTypeStack (.headerT "h" .fnil) (some 3)).2 = false ↔
      (isHeader (canonicalize (.headerT "h" .fnil)) = true ∨
       isUnion (canonicalize (.headerT "h" .fnil)) = true)) :=
  postorderTypeStack_spec (.headerT "h" .fnil) (some 3)

end P4TypeChecker
